import Mathlib

/-!
# timeout: a sound-resettable countdown (main.go)

A shallow embedding of `fmtDuration`, `OnAudio` and the loop of `run`
from `main.go`, with the properties of the written specification stated
against it.

Conventions of the embedding.

* `time.Duration` is an `int64` count of nanoseconds. It is an `Int` here and
  every arithmetic step that Go performs on `int64` is wrapped by `wrapInt64`.
  Go's `/` and `%` truncate towards zero: `Int.tdiv`, `Int.tmod`.
* `time.Time` values are readings of the process clock in nanoseconds
  (`Int`). `Time.Add` is addition; `Time.Sub` is the difference saturated to
  the `Duration` range, as in the standard library.
* `remaining.Seconds() > 0` compares a `float64` with zero. The float is
  `float64(d / Second) + float64(d % Second) / 1e9`, whose sign is the sign of
  `d`, so the guard is `0 < remaining`.
-/

namespace Timeout

/-! ## Durations (package `time`) -/

/-- The constant `time.Second`, in nanoseconds. -/
def Second : Int := 1000000000

/-- The constant `time.Minute`, in nanoseconds. -/
def Minute : Int := 60 * Second

/-- Smallest `time.Duration`, `-1 << 63`. -/
def minDuration : Int := -9223372036854775808

/-- Largest `time.Duration`, `1<<63 - 1`. -/
def maxDuration : Int := 9223372036854775807

/-- Two's-complement wrap-around of a mathematical integer into `int64`. -/
def wrapInt64 (x : Int) : Int :=
  (x + 9223372036854775808) % 18446744073709551616 - 9223372036854775808

/-- Conversion `uint64(x)` of an `int64`. -/
def toUint64 (x : Int) : Int := x % 18446744073709551616

/-- The helper `lessThanHalf` of package `time`:
`uint64(x)+uint64(x) < uint64(y)`. -/
def lessThanHalf (x y : Int) : Bool :=
  decide ((toUint64 x + toUint64 x) % 18446744073709551616 < toUint64 y)

/-- The method `Duration.Round` of package `time`: round `d` to the nearest
multiple of `m`, halves away from zero, saturating at the ends of the
`Duration` range. -/
def Round (d m : Int) : Int :=
  if m ≤ 0 then d
  else
    let r := Int.tmod d m
    if d < 0 then
      let r := wrapInt64 (-r)
      if lessThanHalf r m then wrapInt64 (d + r)
      else
        let d1 := wrapInt64 (wrapInt64 (d - m) + r)
        if d1 < d then d1 else minDuration
    else
      if lessThanHalf r m then wrapInt64 (d - r)
      else
        let d1 := wrapInt64 (wrapInt64 (d + m) - r)
        if d1 > d then d1 else maxDuration

/-! ## Formatting (package `fmt`, verb `%02d`) -/

/-- Left-pad a digit string with `'0'` up to `width` characters. -/
def padZero (width : Nat) (digits : List Char) : List Char :=
  List.replicate (width - digits.length) '0' ++ digits

/-- The verb `%02d` applied to an integer: decimal digits zero-padded to width
two, where a minus sign takes one column of the width and precedes the
padding. -/
def fmt02d (n : Int) : List Char :=
  if n < 0 then '-' :: padZero 1 (Nat.toDigits 10 n.natAbs)
  else padZero 2 (Nat.toDigits 10 n.natAbs)

/-- The function `fmtDuration` of `main.go`. -/
def fmtDuration (d : Int) : String :=
  let d := Round d Second
  let m := wrapInt64 (Int.tdiv d Minute)
  let d := wrapInt64 (d - wrapInt64 (m * Minute))
  let s := wrapInt64 (Int.tdiv d Second)
  String.mk (fmt02d m ++ ':' :: fmt02d s)

/-! ## Instants (package `time`) -/

/-- The method `Time.Add` on clock readings in nanoseconds. -/
def Time.Add (t : Int) (d : Int) : Int := t + d

/-- The method `Time.Sub`: the difference `t - u` as a `Duration`, saturated to
`maxDuration` and `minDuration` when it does not fit. -/
def Time.Sub (t u : Int) : Int :=
  if maxDuration < t - u then maxDuration
  else if t - u < minDuration then minDuration
  else t - u

/-! ## The moving-average tracker -/

/-- Modelled from the spec: the moving-average tracker, which `main.go` takes
from the imported package `movingaverage` (not part of the repository's
sources). A bounded FIFO of magnitudes, oldest first, with a fixed capacity
`Window`, and the running sum of the held magnitudes. Magnitudes are `float64`
in the program; every value fed by `run` is the absolute value of an `int16`
and at most 4096 of them are summed, so all sums are integers below `2^53` and
exact, and they are rational numbers here. -/
structure MovingAverage where
  Window : Nat
  values : List ℚ
  sum : ℚ

/-- Modelled from the spec: a tracker with capacity `window`, holding nothing. -/
def MovingAverage.New (window : Nat) : MovingAverage := ⟨window, [], 0⟩

/-- Modelled from the spec: `Add(value)`. Below capacity the value is appended;
at capacity the oldest value is evicted and the running sum is adjusted by
`new - evicted`. -/
def MovingAverage.Add (ma : MovingAverage) (value : ℚ) : MovingAverage :=
  if ma.values.length < ma.Window then
    { ma with values := ma.values ++ [value], sum := ma.sum + value }
  else
    match ma.values with
    | [] => ma
    | evicted :: rest =>
      { ma with values := rest ++ [value], sum := ma.sum + (value - evicted) }

/-- Modelled from the spec: `Average()`, the running sum over the count, and 0
for an empty window. -/
def MovingAverage.Avg (ma : MovingAverage) : ℚ :=
  if ma.values.length = 0 then 0 else ma.sum / ma.values.length

/-! ## The capture callback `OnAudio` -/

/-- Byte order of the platform. -/
inductive ByteOrder
  | littleEndian
  | bigEndian
  deriving DecidableEq, Repr

/-- The `int16` stored in two consecutive bytes, in the platform's byte order. -/
def int16OfBytes (bo : ByteOrder) (b0 b1 : Fin 256) : Int :=
  let u : Int :=
    match bo with
    | .littleEndian => (b0.val : Int) + 256 * (b1.val : Int)
    | .bigEndian => 256 * (b0.val : Int) + (b1.val : Int)
  if u < 32768 then u else u - 65536

/-- Element `i` of the `[]int16` slice header laid over the byte stream:
the `int16` at byte offset `2 * i`. -/
def bufAt (bo : ByteOrder) (stream : List (Fin 256)) (i : Nat) : Int :=
  int16OfBytes bo (stream.getD (2 * i) 0) (stream.getD (2 * i + 1) 0)

/-- The function `OnAudio` of `main.go`, called with a stream of bytes and its
length `_length`: the batches it sends on `audioC`. The slice `buf` is laid
over the stream with `length = _length / 2` elements, copied into a fresh
slice `audioSamples` of that length, and that one slice is sent. A negative
length makes `make` panic: `none`. -/
def OnAudio (bo : ByteOrder) (stream : List (Fin 256)) (_length : Int) :
    Option (List (List Int)) :=
  let length := Int.tdiv _length 2
  if length < 0 then none
  else
    let audioSamples := (List.range length.toNat).map (bufAt bo stream)
    some [audioSamples]

/-- The two bytes that hold an `int16`, in memory order for the platform's byte
order. -/
def bytesOfInt16 (bo : ByteOrder) (x : Int) : List (Fin 256) :=
  let u : Int := x % 65536
  match bo with
  | .littleEndian => [Fin.ofNat (u % 256).toNat, Fin.ofNat (u / 256).toNat]
  | .bigEndian => [Fin.ofNat (u / 256).toNat, Fin.ofNat (u % 256).toNat]

/-! ## The loop of `run` -/

/-- An event returned by `sdl.PollEvent`. -/
inductive Event
  | QuitEvent
  | other
  deriving DecidableEq, Repr

/-- What the environment supplies to one pass through the loop body: the
pending events, the batch received from `audioC`, whether rendering and
blitting fail, and the clock reading of line 190. -/
structure Iteration where
  events : List Event
  audioSamples : List Int
  renderErr : Bool
  blitErr : Bool
  now : Int

/-- The variables of `run` that the loop reads and writes. -/
structure LoopState where
  start : Int
  end_ : Int
  running : Bool
  remaining : Int
  movingAvg : MovingAverage

/-- What one pass through the loop body did. -/
structure Frame where
  /-- Value of `start` during the pass (line 190 not yet reached). -/
  start : Int
  /-- Value of `end` when the pass began. -/
  endBefore : Int
  /-- Whether line 170 ran. -/
  triggered : Bool
  /-- Value of `end` after the `select` statement. -/
  endAfter : Int
  /-- Argument of `fmtDuration` on line 176. -/
  formatted : Int
  /-- String passed to `font.RenderUTF8Blended`. -/
  text : String

/-- How the loop ended. -/
inductive Outcome
  /-- The function `run` returned; `err` tells whether its error is non-nil. -/
  | returned (err : Bool)
  /-- The batches ran out while the guard still held: the loop is blocked on
  the receive from `audioC`. -/
  | blocked
  deriving DecidableEq, Repr

/-- Result of running the loop. -/
structure Run where
  frames : List Frame
  final : LoopState
  outcome : Outcome

/-- The loop guard `running && remaining.Seconds() > 0`. -/
def guard (s : LoopState) : Bool := s.running && decide (0 < s.remaining)

/-- Lines 156 to 161: drain the pending events. -/
def pollEvents (running : Bool) (events : List Event) : Bool :=
  events.foldl (fun r e => match e with
    | .QuitEvent => false
    | .other => r) running

/-- Lines 164 to 166: feed the absolute value of every sample of the batch. -/
def feed (ma : MovingAverage) (audioSamples : List Int) : MovingAverage :=
  audioSamples.foldl (fun m x => m.Add ((|x| : Int) : ℚ)) ma

/-- One pass through the loop body, lines 156 to 191: the frame, the state
the pass leaves, and whether it returned from `run` with an error. -/
def body (dur : Int) (s : LoopState) (it : Iteration) : Frame × LoopState × Bool :=
  let running := pollEvents s.running it.events
  let movingAvg := feed s.movingAvg it.audioSamples
  let triggered := decide (movingAvg.Avg > 1000)
  let end_ := if triggered then Time.Add s.start dur else s.end_
  let frame : Frame := ⟨s.start, s.end_, triggered, end_, s.remaining, fmtDuration s.remaining⟩
  if it.renderErr then (frame, ⟨s.start, end_, running, s.remaining, movingAvg⟩, true)
  else if it.blitErr then (frame, ⟨s.start, end_, running, s.remaining, movingAvg⟩, true)
  else
    let start := it.now
    let remaining := Time.Sub end_ start
    (frame, ⟨start, end_, running, remaining, movingAvg⟩, false)

/-- The loop of `run`, lines 155 to 192, over the passes the environment
supplies. -/
def loop (dur : Int) : LoopState → List Iteration → Run
  | s, [] => ⟨[], s, if guard s then .blocked else .returned false⟩
  | s, it :: rest =>
    if guard s then
      match body dur s it with
      | (frame, s1, true) => ⟨[frame], s1, .returned true⟩
      | (frame, s1, false) =>
        let r := loop dur s1 rest
        ⟨frame :: r.frames, r.final, r.outcome⟩
    else ⟨[], s, .returned false⟩

/-- Lines 147 to 154: the state in which the loop is first reached, when the
clock reads `t0`. -/
def initState (dur : Int) (t0 : Int) : LoopState :=
  let start := t0
  let end_ := Time.Add start dur
  let movingAvg := MovingAverage.New 4096
  let running := true
  let remaining := Time.Sub end_ start
  ⟨start, end_, running, remaining, movingAvg⟩

/-- The function `run` from line 147 on (the set-up of SDL, the audio device,
the window and the font having succeeded). -/
def run (dur : Int) (t0 : Int) (its : List Iteration) : Run :=
  loop dur (initState dur t0) its

/-- Lines 210 to 212 of `main`: the exit status of the process. -/
def exitStatus : Outcome → Option Nat
  | .returned true => some 1
  | .returned false => some 0
  | .blocked => none

/-- A pass with no pending event and no rendering failure: the batch received
and the clock reading at its end. -/
def pass (audioSamples : List Int) (now : Int) : Iteration :=
  ⟨[], audioSamples, false, false, now⟩

/-- A pass in which a quit event is pending behind another event, while a loud
batch arrives. -/
def quitPass (now : Int) : Iteration :=
  ⟨[Event.other, Event.QuitEvent], [30000], false, false, now⟩

/-- The variable `remaining` is the saturated difference of `end` and `start`. -/
def Synced (s : LoopState) : Prop := s.remaining = Time.Sub s.end_ s.start

/-- The clock reading from which the countdown in force is counted, after a
list of passes given by their trigger flag and their clock reading: the reading
`cur` in force when the most recent triggering pass began (the one taken at the
end of the pass before it), or `base` when no pass triggered. -/
def resetBase : Int → Int → List (Bool × Int) → Int
  | _, base, [] => base
  | cur, base, (triggered, now) :: rest =>
    resetBase now (if triggered then cur else base) rest

/-- The clock reading of the most recent triggering pass of a list of passes
given by their trigger flag and their clock reading, or `base` when no pass
triggered. -/
def lastTriggerReading : Int → List (Bool × Int) → Int
  | base, [] => base
  | base, (triggered, now) :: rest =>
    lastTriggerReading (if triggered then now else base) rest

/-- The absolute values of all the samples received over a list of passes, in
order of arrival. -/
def received : List Iteration → List ℚ
  | [] => []
  | it :: rest => it.audioSamples.map (fun x => ((|x| : Int) : ℚ)) ++ received rest

/-- The most recent `min n cap` values of a list of `n` values. -/
def recent (cap : Nat) (xs : List ℚ) : List ℚ :=
  xs.drop (xs.length - min xs.length cap)

/-- The arithmetic mean of a list of values (0 for no value). -/
def mean (xs : List ℚ) : ℚ := xs.sum / xs.length

/-- The tracker holds the most recent values of the history `hist`, up to its
capacity, and their sum. -/
def Tracks (ma : MovingAverage) (hist : List ℚ) : Prop :=
  ma.values = recent ma.Window hist ∧ ma.sum = ma.values.sum

/-! ## The `mm:ss` form, in the words of the specification -/

/-- A non-negative duration rounded to the nearest second, halves away from
zero, in seconds. -/
def roundedSeconds (d : Int) : Nat := ((d + 500000000) / 1000000000).toNat

/-- The whole minutes of the rounded duration. -/
def wholeMinutes (d : Int) : Nat := roundedSeconds d / 60

/-- The leftover seconds: the rounded duration minus its whole minutes. -/
def leftoverSeconds (d : Int) : Nat := roundedSeconds d - 60 * wholeMinutes d

/-- A number in decimal, zero-padded to at least two digits. -/
def zeroPad2 (n : Nat) : String := if n < 10 then "0" ++ toString n else toString n

/-- Minutes, a colon, seconds. -/
def mmss (d : Int) : String :=
  zeroPad2 (wholeMinutes d) ++ ":" ++ zeroPad2 (leftoverSeconds d)

/-- Value of the minutes field printed for a rounded duration `D`. -/
def minutesOf (D : Int) : Nat := (D / 60000000000).toNat

/-- Value of the seconds field printed for a rounded duration `D`. -/
def secondsOf (D : Int) : Nat := (D % 60000000000 / 1000000000).toNat

/-! ## Arithmetic of `Round` and of the minute and second fields -/

theorem wrapInt64_eq_self (x : Int) (h1 : -9223372036854775808 ≤ x)
    (h2 : x ≤ 9223372036854775807) : wrapInt64 x = x := by
  unfold wrapInt64; omega

/-- Below the last half second of the range, `Round` by a second is rounding
to the nearest second, halves up. -/
theorem Round_Second_eq (d : Int) (h0 : 0 ≤ d) (h : d < 9223372036500000000) :
    Round d Second = 1000000000 * ((d + 500000000) / 1000000000) := by
  unfold Round
  rw [if_neg (by decide : ¬ (Second ≤ 0))]
  simp only
  rw [if_neg (not_lt.mpr h0), Int.tmod_eq_emod h0 (by decide)]
  unfold lessThanHalf toUint64 Second wrapInt64
  by_cases hr : d % 1000000000 + d % 1000000000 < 1000000000
  · have hl : (d % 1000000000 % 18446744073709551616 + d % 1000000000 % 18446744073709551616)
        % 18446744073709551616 < 1000000000 % 18446744073709551616 := by omega
    simp only [hl, decide_True, if_true]
    omega
  · have hl : ¬ ((d % 1000000000 % 18446744073709551616 + d % 1000000000 % 18446744073709551616)
        % 18446744073709551616 < 1000000000 % 18446744073709551616) := by omega
    simp only [hl, decide_False, Bool.false_eq_true, if_false, maxDuration]
    split_ifs <;> omega

/-- In the last half second of the range, `Round` by a second saturates. -/
theorem Round_Second_saturates (d : Int) (h0 : 9223372036500000000 ≤ d)
    (h : d ≤ 9223372036854775807) : Round d Second = maxDuration := by
  unfold Round
  rw [if_neg (by decide : ¬ (Second ≤ 0))]
  simp only
  have hd : 0 ≤ d := by omega
  rw [if_neg (not_lt.mpr hd), Int.tmod_eq_emod hd (by decide)]
  unfold lessThanHalf toUint64 Second wrapInt64
  have hl : ¬ ((d % 1000000000 % 18446744073709551616 + d % 1000000000 % 18446744073709551616)
      % 18446744073709551616 < 1000000000 % 18446744073709551616) := by omega
  simp only [hl, decide_False, Bool.false_eq_true, if_false, maxDuration]
  split_ifs <;> omega

theorem Round_Second_range (d : Int) (h0 : 0 ≤ d) (h1 : d ≤ 9223372036854775807) :
    0 ≤ Round d Second ∧ Round d Second ≤ 9223372036854775807 := by
  by_cases h : d < 9223372036500000000
  · rw [Round_Second_eq d h0 h]; omega
  · rw [Round_Second_saturates d (by omega) h1]; unfold maxDuration; omega

/-- The three fields of `fmtDuration` on a non-negative duration. -/
theorem fmtDuration_fields (d : Int) (h0 : 0 ≤ d) (h1 : d ≤ 9223372036854775807) :
    fmtDuration d = String.mk (padZero 2 (Nat.toDigits 10 (minutesOf (Round d Second)))
      ++ ':' :: padZero 2 (Nat.toDigits 10 (secondsOf (Round d Second)))) := by
  obtain ⟨hD0, hD1⟩ := Round_Second_range d h0 h1
  unfold fmtDuration
  simp only
  generalize Round d Second = D at hD0 hD1
  have hm : wrapInt64 (Int.tdiv D Minute) = D / 60000000000 := by
    rw [Int.tdiv_eq_ediv hD0 (by decide)]
    unfold Minute Second
    exact wrapInt64_eq_self _ (by omega) (by omega)
  have hd : wrapInt64 (D - wrapInt64 (D / 60000000000 * Minute)) = D % 60000000000 := by
    unfold Minute Second
    rw [wrapInt64_eq_self (D / 60000000000 * (60 * 1000000000)) (by omega) (by omega)]
    rw [wrapInt64_eq_self _ (by omega) (by omega)]
    omega
  have hs : wrapInt64 (Int.tdiv (D % 60000000000) Second) = D % 60000000000 / 1000000000 := by
    rw [Int.tdiv_eq_ediv (by omega) (by decide)]
    unfold Second
    exact wrapInt64_eq_self _ (by omega) (by omega)
  rw [hm, hd, hs]
  have e1 : fmt02d (D / 60000000000) = padZero 2 (Nat.toDigits 10 (minutesOf D)) := by
    unfold fmt02d minutesOf
    rw [if_neg (by omega)]
    congr 2
    omega
  have e2 : fmt02d (D % 60000000000 / 1000000000)
      = padZero 2 (Nat.toDigits 10 (secondsOf D)) := by
    unfold fmt02d secondsOf
    rw [if_neg (by omega)]
    congr 2
    omega
  rw [e1, e2]

/-! ## Decimal digit strings -/

theorem digitChar_isDigit (k : Nat) (h : k < 10) : (Nat.digitChar k).isDigit = true := by
  interval_cases k <;> rfl

theorem toDigitsCore_isDigit (fuel : Nat) : ∀ (n : Nat) (ds : List Char),
    (∀ c ∈ ds, c.isDigit = true) → ∀ c ∈ Nat.toDigitsCore 10 fuel n ds, c.isDigit = true := by
  induction fuel with
  | zero => intro n ds h; simpa [Nat.toDigitsCore] using h
  | succ f ih =>
    intro n ds h
    have hd : (Nat.digitChar (n % 10)).isDigit = true :=
      digitChar_isDigit _ (Nat.mod_lt _ (by decide))
    have hcons : ∀ c ∈ Nat.digitChar (n % 10) :: ds, c.isDigit = true := by
      intro c hc
      rcases List.mem_cons.mp hc with rfl | hc
      · exact hd
      · exact h c hc
    unfold Nat.toDigitsCore
    by_cases hq : n / 10 = 0
    · simpa [hq] using hcons
    · simpa [hq] using ih (n / 10) _ hcons

theorem toDigits_isDigit (n : Nat) : ∀ c ∈ Nat.toDigits 10 n, c.isDigit = true :=
  toDigitsCore_isDigit (n + 1) n [] (by simp)

theorem toDigitsCore_length_le (fuel : Nat) : ∀ (n : Nat) (ds : List Char),
    ds.length ≤ (Nat.toDigitsCore 10 fuel n ds).length := by
  induction fuel with
  | zero => intro n ds; simp [Nat.toDigitsCore]
  | succ f ih =>
    intro n ds
    unfold Nat.toDigitsCore
    by_cases hq : n / 10 = 0
    · simp [hq]
    · simp only [hq, if_false]
      exact le_trans (by simp) (ih (n / 10) _)

theorem toDigits_one (n : Nat) (h : n < 10) : Nat.toDigits 10 n = [Nat.digitChar n] := by
  interval_cases n <;> rfl

theorem toDigits_two (n : Nat) (h1 : 10 ≤ n) (h : n < 100) :
    Nat.toDigits 10 n = [Nat.digitChar (n / 10), Nat.digitChar (n % 10)] := by
  interval_cases n <;> rfl

theorem toDigits_length_ge_three (n : Nat) (h : 100 ≤ n) :
    3 ≤ (Nat.toDigits 10 n).length := by
  obtain ⟨k, rfl⟩ : ∃ k, n = k + 100 := ⟨n - 100, by omega⟩
  have e : k + 100 + 1 = (k + 98) + 1 + 1 + 1 := by omega
  unfold Nat.toDigits
  rw [e]
  have q1 : (k + 100) / 10 ≠ 0 := by omega
  have q2 : (k + 100) / 10 / 10 ≠ 0 := by omega
  rw [Nat.toDigitsCore]
  simp only [q1, if_false]
  rw [Nat.toDigitsCore]
  simp only [q2, if_false]
  rw [Nat.toDigitsCore]
  by_cases q3 : (k + 100) / 10 / 10 / 10 = 0
  · simp [q3]
  · simp only [q3, if_false]
    exact le_trans (by simp) (toDigitsCore_length_le _ _ _)

theorem toDigits_length_ge_two (n : Nat) (h : 10 ≤ n) : 2 ≤ (Nat.toDigits 10 n).length := by
  by_cases h2 : n < 100
  · rw [toDigits_two n h h2]; simp
  · exact le_trans (by decide) (toDigits_length_ge_three n (by omega))

/-- Padding to width two: a leading zero below ten, nothing from ten on. -/
theorem padZero_two (n : Nat) :
    padZero 2 (Nat.toDigits 10 n)
      = if n < 10 then ['0', Nat.digitChar n] else Nat.toDigits 10 n := by
  by_cases h : n < 10
  · rw [if_pos h, toDigits_one n h]; rfl
  · rw [if_neg h]
    have := toDigits_length_ge_two n (by omega)
    unfold padZero
    rw [Nat.sub_eq_zero_of_le this]
    rfl

/-- The seconds field: two digits. -/
theorem padZero_two_lt_sixty (n : Nat) (h : n < 60) :
    padZero 2 (Nat.toDigits 10 n) = [Nat.digitChar (n / 10), Nat.digitChar (n % 10)] := by
  interval_cases n <;> rfl

theorem zeroPad2_eq (n : Nat) : zeroPad2 n = String.mk (padZero 2 (Nat.toDigits 10 n)) := by
  rw [padZero_two]
  unfold zeroPad2
  by_cases h : n < 10
  · rw [if_pos h, if_pos h]
    show "0" ++ Nat.repr n = _
    unfold Nat.repr
    rw [toDigits_one n h]
    rfl
  · rw [if_neg h, if_neg h]
    rfl

theorem mmss_eq (d : Int) : mmss d = String.mk (padZero 2 (Nat.toDigits 10 (wholeMinutes d))
    ++ ':' :: padZero 2 (Nat.toDigits 10 (leftoverSeconds d))) := by
  unfold mmss
  rw [zeroPad2_eq, zeroPad2_eq]
  apply String.ext
  simp [String.data_append]

/-- Two decimal digits and the number they write. -/
theorem two_digits_value (n : Nat) (h : n < 60) :
    (Nat.digitChar (n / 10)).isDigit = true ∧ (Nat.digitChar (n % 10)).isDigit = true ∧
    10 * ((Nat.digitChar (n / 10)).toNat - '0'.toNat)
      + ((Nat.digitChar (n % 10)).toNat - '0'.toNat) = n := by
  interval_cases n <;> decide

theorem minutes_field_length (n : Nat) :
    (padZero 2 (Nat.toDigits 10 n)).length = 2 ↔ n < 100 := by
  rw [padZero_two]
  by_cases h : n < 10
  · rw [if_pos h]; simp; omega
  · rw [if_neg h]
    by_cases h2 : n < 100
    · rw [toDigits_two n (by omega) h2]; simp [h2]
    · have := toDigits_length_ge_three n (by omega)
      constructor
      · intro e; omega
      · intro e; omega

theorem minutes_field_isDigit (n : Nat) :
    ∀ c ∈ padZero 2 (Nat.toDigits 10 n), c.isDigit = true := by
  intro c hc
  unfold padZero at hc
  rcases List.mem_append.mp hc with hc | hc
  · rw [(List.mem_replicate.mp hc).2]; rfl
  · exact toDigits_isDigit n c hc

theorem minutes_field_length_ge (n : Nat) : 2 ≤ (padZero 2 (Nat.toDigits 10 n)).length := by
  unfold padZero
  simp only [List.length_append, List.length_replicate]
  omega

/-! ## Unfolding the loop -/

theorem loop_nil (dur : Int) (s : LoopState) :
    loop dur s [] = ⟨[], s, if guard s then .blocked else .returned false⟩ := by
  unfold loop; rfl

theorem loop_cons (dur : Int) (s : LoopState) (it : Iteration) (rest : List Iteration) :
    loop dur s (it :: rest) =
      if guard s then
        if (body dur s it).2.2 then ⟨[(body dur s it).1], (body dur s it).2.1, .returned true⟩
        else ⟨(body dur s it).1 :: (loop dur (body dur s it).2.1 rest).frames,
          (loop dur (body dur s it).2.1 rest).final,
          (loop dur (body dur s it).2.1 rest).outcome⟩
      else ⟨[], s, .returned false⟩ := by
  rw [loop]
  by_cases hg : guard s = true
  · rw [if_pos hg, if_pos hg]
    rcases hb : body dur s it with ⟨frame, s1, err⟩
    cases err <;> simp
  · rw [if_neg hg, if_neg hg]

theorem guard_iff (s : LoopState) : guard s = true ↔ s.running = true ∧ 0 < s.remaining := by
  unfold guard; simp

theorem body_frame (dur : Int) (s : LoopState) (it : Iteration) :
    (body dur s it).1 = ⟨s.start, s.end_,
      decide ((feed s.movingAvg it.audioSamples).Avg > 1000),
      if decide ((feed s.movingAvg it.audioSamples).Avg > 1000) = true
        then Time.Add s.start dur else s.end_,
      s.remaining, fmtDuration s.remaining⟩ := by
  unfold body
  simp only
  split_ifs <;> rfl

theorem body_failed (dur : Int) (s : LoopState) (it : Iteration) :
    (body dur s it).2.2 = (it.renderErr || it.blitErr) := by
  unfold body
  simp only
  cases it.renderErr <;> cases it.blitErr <;> simp

theorem body_next (dur : Int) (s : LoopState) (it : Iteration)
    (h : (body dur s it).2.2 = false) :
    (body dur s it).2.1 = ⟨it.now,
      if decide ((feed s.movingAvg it.audioSamples).Avg > 1000) = true
        then Time.Add s.start dur else s.end_,
      pollEvents s.running it.events,
      Time.Sub (if decide ((feed s.movingAvg it.audioSamples).Avg > 1000) = true
        then Time.Add s.start dur else s.end_) it.now,
      feed s.movingAvg it.audioSamples⟩ := by
  rw [body_failed] at h
  unfold body
  simp only
  cases h1 : it.renderErr <;> cases h2 : it.blitErr <;> simp_all

theorem body_next_failed (dur : Int) (s : LoopState) (it : Iteration)
    (h : (body dur s it).2.2 = true) :
    (body dur s it).2.1 = ⟨s.start,
      if decide ((feed s.movingAvg it.audioSamples).Avg > 1000) = true
        then Time.Add s.start dur else s.end_,
      pollEvents s.running it.events, s.remaining,
      feed s.movingAvg it.audioSamples⟩ := by
  rw [body_failed] at h
  unfold body
  simp only
  cases h1 : it.renderErr <;> cases h2 : it.blitErr <;> simp_all

theorem Time.Sub_pos_iff (t u : Int) : 0 < Time.Sub t u ↔ u < t := by
  unfold Time.Sub maxDuration minDuration
  split_ifs <;> omega

theorem Time.Sub_nonneg_iff (t u : Int) : 0 ≤ Time.Sub t u ↔ u ≤ t := by
  unfold Time.Sub maxDuration minDuration
  split_ifs <;> omega

theorem Time.Sub_le_max (t u : Int) : Time.Sub t u ≤ 9223372036854775807 := by
  unfold Time.Sub maxDuration minDuration
  split_ifs <;> omega

theorem pollEvents_false (events : List Event) : pollEvents false events = false := by
  induction events with
  | nil => rfl
  | cons e es ih =>
    unfold pollEvents at *
    cases e <;> simpa using ih

theorem pollEvents_quit (running : Bool) (events : List Event)
    (h : Event.QuitEvent ∈ events) : pollEvents running events = false := by
  induction events generalizing running with
  | nil => simp at h
  | cons e es ih =>
    cases e with
    | QuitEvent =>
      have := pollEvents_false es
      unfold pollEvents at *
      simpa using this
    | other =>
      have h2 : Event.QuitEvent ∈ es := by simpa using h
      have := ih running h2
      unfold pollEvents at *
      simpa using this

theorem pollEvents_no_quit (running : Bool) (events : List Event)
    (h : Event.QuitEvent ∉ events) : pollEvents running events = running := by
  induction events with
  | nil => rfl
  | cons e es ih =>
    cases e with
    | QuitEvent => simp at h
    | other =>
      have h2 : Event.QuitEvent ∉ es := by simpa using h
      have := ih h2
      unfold pollEvents at *
      simpa using this

/-! ## Claims about `fmtDuration` -/

/-- C1, as stated, fails at the largest duration: rounding 9223372036.854775807 s
to the nearest second gives 9223372037 s, that is 153722867 minutes and 17
seconds, but `Round` saturates at `maxDuration` and `fmtDuration` prints 16
seconds. -/
theorem fmtDuration_mmss_counterexample :
    (0 : Int) ≤ 9223372036854775807 ∧
    fmtDuration 9223372036854775807 = "153722867:16" ∧
    mmss 9223372036854775807 = "153722867:17" ∧
    fmtDuration 9223372036854775807 ≠ mmss 9223372036854775807 := by
  refine ⟨by decide, by decide, by decide, by decide⟩

/-- C1 (amended): for every duration `d` with `0 ≤ d < 9223372036.5 s`,
`fmtDuration d` is the whole minutes of `d` rounded to the nearest second
(halves away from zero), zero-padded to at least two digits, a colon, and the
leftover seconds zero-padded to two digits; in the last half second of the
`Duration` range the rounding saturates and the string is `153722867:16`. In
particular 200 s gives `03:20`, 5 s gives `00:05` and 0 s gives `00:00`. -/
theorem fmtDuration_mmss :
    (∀ d : Int, 0 ≤ d → d < 9223372036500000000 → fmtDuration d = mmss d) ∧
    (∀ d : Int, 9223372036500000000 ≤ d → d ≤ maxDuration →
      fmtDuration d = "153722867:16") ∧
    fmtDuration (200 * Second) = "03:20" ∧
    fmtDuration (5 * Second) = "00:05" ∧
    fmtDuration (0 * Second) = "00:00" := by
  refine ⟨?_, ?_, by decide, by decide, by decide⟩
  · intro d h0 h
    rw [fmtDuration_fields d h0 (by omega), mmss_eq, Round_Second_eq d h0 h]
    have e1 : minutesOf (1000000000 * ((d + 500000000) / 1000000000)) = wholeMinutes d := by
      unfold minutesOf wholeMinutes roundedSeconds
      omega
    have e2 : secondsOf (1000000000 * ((d + 500000000) / 1000000000)) = leftoverSeconds d := by
      unfold secondsOf leftoverSeconds wholeMinutes roundedSeconds
      omega
    rw [e1, e2]
  · intro d h0 h
    unfold maxDuration at h
    rw [fmtDuration_fields d (by omega) h, Round_Second_saturates d h0 h]
    decide

/-- C1 (amended), at 90.5 s: the half second rounds up. -/
theorem fmtDuration_mmss_witness :
    fmtDuration 90500000000 = mmss 90500000000 ∧ mmss 90500000000 = "01:31" ∧
    fmtDuration 9223372036500000000 = "153722867:16" :=
  ⟨fmtDuration_mmss.1 90500000000 (by decide) (by decide), by decide,
    fmtDuration_mmss.2.1 9223372036500000000 (by decide) (by decide)⟩

/-- C7, as stated, fails from 100 minutes on: 6000 s is printed with a
three-digit minutes field, six characters in all. -/
theorem fmtDuration_form_counterexample :
    (0 : Int) ≤ 6000 * Second ∧ fmtDuration (6000 * Second) = "100:00" ∧
    (fmtDuration (6000 * Second)).length ≠ 5 := by
  refine ⟨by decide, by decide, by decide⟩

/-- C7 (amended): for every non-negative duration `d`, `fmtDuration d` is a
minutes field of at least two decimal digits, a colon, and a seconds field of
exactly two decimal digits whose value is between 00 and 59; it has exactly
five characters, the form `MM:SS`, if and only if `d` rounds to less than 100
minutes, that is `d < 5999.5 s`. -/
theorem fmtDuration_form (d : Int) (h0 : 0 ≤ d) (h1 : d ≤ maxDuration) :
    ∃ (mm : List Char) (a b : Char),
      (fmtDuration d).data = mm ++ [':', a, b] ∧
      2 ≤ mm.length ∧ (∀ c ∈ mm, c.isDigit = true) ∧
      a.isDigit = true ∧ b.isDigit = true ∧
      10 * (a.toNat - '0'.toNat) + (b.toNat - '0'.toNat) ≤ 59 ∧
      ((fmtDuration d).length = 5 ↔ d < 5999500000000) := by
  unfold maxDuration at h1
  obtain ⟨hD0, hD1⟩ := Round_Second_range d h0 h1
  have hs : secondsOf (Round d Second) < 60 := by
    unfold secondsOf; omega
  obtain ⟨ha, hb, hv⟩ := two_digits_value _ hs
  refine ⟨padZero 2 (Nat.toDigits 10 (minutesOf (Round d Second))),
    Nat.digitChar (secondsOf (Round d Second) / 10),
    Nat.digitChar (secondsOf (Round d Second) % 10), ?_, minutes_field_length_ge _,
    minutes_field_isDigit _, ha, hb, by omega, ?_⟩
  · rw [fmtDuration_fields d h0 h1, padZero_two_lt_sixty _ hs]
  · rw [fmtDuration_fields d h0 h1, padZero_two_lt_sixty _ hs]
    have hlen : ∀ l : List Char, (String.mk (l ++ [':',
        Nat.digitChar (secondsOf (Round d Second) / 10),
        Nat.digitChar (secondsOf (Round d Second) % 10)])).length = l.length + 3 := by
      intro l; simp [String.length]
    have hcons : ∀ (l : List Char) (x y z : Char), l ++ x :: [y, z] = l ++ [x, y, z] := by
      intro l x y z; rfl
    rw [hcons, hlen]
    have hm := minutes_field_length (minutesOf (Round d Second))
    have hmin : minutesOf (Round d Second) < 100 ↔ d < 5999500000000 := by
      by_cases h : d < 9223372036500000000
      · rw [Round_Second_eq d h0 h]; unfold minutesOf; omega
      · rw [Round_Second_saturates d (by omega) h1]; unfold minutesOf maxDuration; omega
    rw [← hmin, ← hm]
    omega

/-- C7 (amended), at 3 min 20 s. -/
theorem fmtDuration_form_witness :
    ∃ (mm : List Char) (a b : Char),
      (fmtDuration 200000000000).data = mm ++ [':', a, b] ∧
      2 ≤ mm.length ∧ (∀ c ∈ mm, c.isDigit = true) ∧
      a.isDigit = true ∧ b.isDigit = true ∧
      10 * (a.toNat - '0'.toNat) + (b.toNat - '0'.toNat) ≤ 59 ∧
      ((fmtDuration 200000000000).length = 5 ↔ (200000000000 : Int) < 5999500000000) :=
  fmtDuration_form 200000000000 (by decide) (by decide)

/-! ## Claims about the loop of `run`: what is displayed, and quitting -/

theorem fmtDuration_no_minus (d : Int) (h0 : 0 ≤ d) (h1 : d ≤ 9223372036854775807) :
    '-' ∉ (fmtDuration d).data := by
  rw [fmtDuration_fields d h0 h1]
  intro hmem
  have hmem2 : '-' ∈ padZero 2 (Nat.toDigits 10 (minutesOf (Round d Second)))
      ++ ':' :: padZero 2 (Nat.toDigits 10 (secondsOf (Round d Second))) := hmem
  rcases List.mem_append.mp hmem2 with h | h
  · exact absurd (minutes_field_isDigit _ _ h) (by decide)
  · rcases List.mem_cons.mp h with h | h
    · exact absurd h (by decide)
    · exact absurd (minutes_field_isDigit _ _ h) (by decide)

theorem loop_frames_positive (dur : Int) (its : List Iteration) : ∀ s : LoopState,
    s.remaining ≤ 9223372036854775807 →
    ∀ f ∈ (loop dur s its).frames,
      0 < f.formatted ∧ f.formatted ≤ 9223372036854775807 ∧
      f.text = fmtDuration f.formatted := by
  induction its with
  | nil => intro s _ f hf; rw [loop_nil] at hf; simp at hf
  | cons it rest ih =>
    intro s hs f hf
    rw [loop_cons] at hf
    by_cases hg : guard s = true
    · have hpos : 0 < s.remaining := ((guard_iff s).mp hg).2
      have hframe : 0 < (body dur s it).1.formatted ∧
          (body dur s it).1.formatted ≤ 9223372036854775807 ∧
          (body dur s it).1.text = fmtDuration (body dur s it).1.formatted := by
        rw [body_frame]; exact ⟨hpos, hs, rfl⟩
      rw [if_pos hg] at hf
      by_cases he : (body dur s it).2.2 = true
      · rw [if_pos he] at hf
        rw [List.mem_singleton.mp hf]; exact hframe
      · rw [if_neg he] at hf
        rcases List.mem_cons.mp hf with hf | hf
        · rw [hf]; exact hframe
        · refine ih (body dur s it).2.1 ?_ f hf
          rw [body_next dur s it (by simpa using he)]
          exact Time.Sub_le_max _ _
    · rw [if_neg hg] at hf; simp at hf

theorem initState_remaining (dur t0 : Int) :
    (initState dur t0).remaining = Time.Sub (t0 + dur) t0 := rfl

/-- C10: in every run of the loop, every duration passed to `fmtDuration` for
display is strictly positive (it is the value of `remaining` that passed the
loop guard), the displayed string is `fmtDuration` of it and contains no minus
sign; and for a zero or negative original duration nothing is displayed. -/
theorem displayed_positive (dur t0 : Int) (its : List Iteration) :
    (∀ f ∈ (run dur t0 its).frames,
      0 < f.formatted ∧ f.text = fmtDuration f.formatted ∧ '-' ∉ f.text.data) ∧
    (dur ≤ 0 → (run dur t0 its).frames = []) := by
  constructor
  · intro f hf
    have hinit : (initState dur t0).remaining ≤ 9223372036854775807 := by
      rw [initState_remaining]; exact Time.Sub_le_max _ _
    obtain ⟨h1, h2, h3⟩ := loop_frames_positive dur its (initState dur t0) hinit f hf
    refine ⟨h1, h3, ?_⟩
    rw [h3]
    exact fmtDuration_no_minus _ (le_of_lt h1) h2
  · intro hdur
    have hg : ¬ (guard (initState dur t0) = true) := by
      rw [guard_iff, initState_remaining, Time.Sub_pos_iff]
      omega
    unfold run
    cases its with
    | nil => rw [loop_nil]
    | cons it rest => rw [loop_cons, if_neg hg]

/-- C10, on a run of two passes from 2 s, and on a run from 0 s. -/
theorem displayed_positive_witness :
    (run 2000000000 0 [pass [0] 1000000000, pass [0] 2000000000]).frames.map
        (fun f => f.text) = ["00:02", "00:01"] ∧
    (∀ f ∈ (run 2000000000 0 [pass [0] 1000000000, pass [0] 2000000000]).frames,
      0 < f.formatted ∧ f.text = fmtDuration f.formatted ∧ '-' ∉ f.text.data) ∧
    (run 0 0 [pass [0] 1000000000]).frames = [] := by
  refine ⟨?_, (displayed_positive 2000000000 0 _).1,
    (displayed_positive 0 0 [pass [0] 1000000000]).2 (by decide)⟩
  norm_num [run, loop, body, feed, guard, initState, MovingAverage.Avg, MovingAverage.Add,
    MovingAverage.New, Time.Add, Time.Sub, pollEvents, pass, maxDuration, minDuration]
  constructor <;> decide

/-- C6: from every loop state whose guard holds, a pass in which a quit event
is drained (rendering and blitting succeeding) is the last one: whatever the
remaining time, the batch received and the passes still on offer, the loop
runs that pass to its end and no further pass, `run` returns no error and the
process exits with status 0. -/
theorem quit_terminates (dur : Int) (s : LoopState) (it : Iteration)
    (rest : List Iteration) (hguard : guard s = true)
    (hquit : Event.QuitEvent ∈ it.events)
    (hrender : it.renderErr = false) (hblit : it.blitErr = false) :
    (loop dur s (it :: rest)).frames = [(body dur s it).1] ∧
    (loop dur s (it :: rest)).final = (body dur s it).2.1 ∧
    (loop dur s (it :: rest)).final.running = false ∧
    (loop dur s (it :: rest)).outcome = .returned false ∧
    exitStatus (loop dur s (it :: rest)).outcome = some 0 := by
  have he : (body dur s it).2.2 = false := by
    rw [body_failed, hrender, hblit]; rfl
  have hrun : (body dur s it).2.1.running = false := by
    rw [body_next dur s it he]; exact pollEvents_quit _ _ hquit
  have hg1 : ¬ (guard (body dur s it).2.1 = true) := by
    rw [guard_iff, hrun]; simp
  have hrest : loop dur (body dur s it).2.1 rest
      = ⟨[], (body dur s it).2.1, .returned false⟩ := by
    cases rest with
    | nil => rw [loop_nil, if_neg hg1]
    | cons it2 rest2 => rw [loop_cons, if_neg hg1]
  rw [loop_cons, if_pos hguard, he, hrest]
  simp [hrun, exitStatus]

/-- C6, at the first pass of a 10 s countdown: a quit event behind another
event, a loud batch that triggers, one more pass on offer. -/
theorem quit_terminates_witness :
    guard (initState 10000000000 0) = true ∧
    (loop 10000000000 (initState 10000000000 0)
      (quitPass 1000000000 :: [pass [0] 2000000000])).frames
      = [(body 10000000000 (initState 10000000000 0) (quitPass 1000000000)).1] ∧
    (loop 10000000000 (initState 10000000000 0)
      (quitPass 1000000000 :: [pass [0] 2000000000])).outcome = .returned false ∧
    exitStatus (loop 10000000000 (initState 10000000000 0)
      (quitPass 1000000000 :: [pass [0] 2000000000])).outcome = some 0 :=
  have h := quit_terminates 10000000000 (initState 10000000000 0) (quitPass 1000000000)
    [pass [0] 2000000000] (by decide) (by decide) rfl rfl
  ⟨by decide, h.1, h.2.2.2.1, h.2.2.2.2⟩

/-! ## Claims about the trigger -/

/-- C2, as stated, fails on a 10 s countdown whose first pass is quiet and ends
at 7 s and whose second pass triggers and ends at 8 s: `end` becomes 17 s, not
8 s + 10 s, and the remaining time recomputed at the end of that pass is 9 s,
not 10 s. -/
theorem trigger_resets_counterexample :
    (run 10000000000 0 [pass [0] 7000000000, pass [30000] 8000000000]).frames.map
        (fun f => f.triggered) = [false, true] ∧
    (run 10000000000 0 [pass [0] 7000000000, pass [30000] 8000000000]).final.start
        = 8000000000 ∧
    (run 10000000000 0 [pass [0] 7000000000, pass [30000] 8000000000]).final.end_
        = 17000000000 ∧
    (run 10000000000 0 [pass [0] 7000000000, pass [30000] 8000000000]).final.end_
        ≠ 8000000000 + 10000000000 ∧
    (run 10000000000 0 [pass [0] 7000000000, pass [30000] 8000000000]).final.remaining
        = 9000000000 ∧
    (run 10000000000 0 [pass [0] 7000000000, pass [30000] 8000000000]).final.remaining
        ≠ 10000000000 := by
  norm_num [run, loop, body, feed, guard, initState, MovingAverage.Avg, MovingAverage.Add,
    MovingAverage.New, Time.Add, Time.Sub, pollEvents, pass, maxDuration, minDuration]

/-- C2 (amended): a pass in which the trigger fires sets `end` to `start + dur`,
where `start` is the clock reading taken at the end of the previous pass (the
initial reading in the first pass); the remaining time recomputed at the end of
that pass is the saturated difference of that `end` and the new reading, which
is `dur` minus the time elapsed between the two readings when that fits a
`Duration`, and exactly `dur` when the clock did not advance; the new `end`
depends on `start` and `dur` only, not on the previous `end`, so that any two
triggered passes with the same `start` set the same `end`. -/
theorem trigger_resets (dur : Int) (s : LoopState) (it : Iteration)
    (hrender : it.renderErr = false) (hblit : it.blitErr = false)
    (htrig : 1000 < (feed s.movingAvg it.audioSamples).Avg) :
    (body dur s it).1.triggered = true ∧
    (body dur s it).2.1.end_ = s.start + dur ∧
    (body dur s it).2.1.start = it.now ∧
    (body dur s it).2.1.remaining = Time.Sub (s.start + dur) it.now ∧
    (minDuration ≤ dur - (it.now - s.start) → dur - (it.now - s.start) ≤ maxDuration →
      (body dur s it).2.1.remaining = dur - (it.now - s.start)) ∧
    (it.now = s.start → minDuration ≤ dur → dur ≤ maxDuration →
      (body dur s it).2.1.remaining = dur) ∧
    (∀ (s2 : LoopState) (it2 : Iteration), s2.start = s.start →
      1000 < (feed s2.movingAvg it2.audioSamples).Avg →
      (body dur s2 it2).2.1.end_ = (body dur s it).2.1.end_) := by
  have he : (body dur s it).2.2 = false := by
    rw [body_failed, hrender, hblit]; rfl
  have hdec : decide ((feed s.movingAvg it.audioSamples).Avg > 1000) = true := by
    simpa using htrig
  have hnext := body_next dur s it he
  rw [hdec, if_pos rfl] at hnext
  have hend : ∀ (s2 : LoopState) (it2 : Iteration),
      1000 < (feed s2.movingAvg it2.audioSamples).Avg →
      (body dur s2 it2).2.1.end_ = s2.start + dur := by
    intro s2 it2 h2
    have hdec2 : decide ((feed s2.movingAvg it2.audioSamples).Avg > 1000) = true := by
      simpa using h2
    by_cases hf : (body dur s2 it2).2.2 = true
    · rw [body_next_failed dur s2 it2 hf, hdec2, if_pos rfl]; rfl
    · rw [body_next dur s2 it2 (by simpa using hf), hdec2, if_pos rfl]; rfl
  have hrem : (body dur s it).2.1.remaining = Time.Sub (s.start + dur) it.now := by
    rw [hnext]; rfl
  refine ⟨?_, ?_, ?_, hrem, ?_, ?_, ?_⟩
  · rw [body_frame, hdec]
  · rw [hnext]; rfl
  · rw [hnext]
  · intro h1 h2
    rw [hrem]
    unfold Time.Sub
    unfold minDuration at h1
    unfold maxDuration at h2
    unfold maxDuration minDuration
    split_ifs <;> omega
  · intro h0 h1 h2
    rw [hrem, h0]
    unfold Time.Sub
    unfold minDuration at h1
    unfold maxDuration at h2
    unfold maxDuration minDuration
    split_ifs <;> omega
  · intro s2 it2 hs h2
    rw [hend s2 it2 h2, hend s it htrig, hs]

/-- C2 (amended), at the first pass of a 10 s countdown, triggered, ending at
3 s: `end` is 10 s and 7 s remain. -/
theorem trigger_resets_witness :
    1000 < (feed (initState 10000000000 0).movingAvg
      (pass [30000] 3000000000).audioSamples).Avg ∧
    (body 10000000000 (initState 10000000000 0) (pass [30000] 3000000000)).2.1.end_
      = 10000000000 ∧
    (body 10000000000 (initState 10000000000 0) (pass [30000] 3000000000)).2.1.remaining
      = 7000000000 :=
  have ht : 1000 < (feed (initState 10000000000 0).movingAvg
      (pass [30000] 3000000000).audioSamples).Avg := by
    norm_num [feed, initState, MovingAverage.Avg, MovingAverage.Add, MovingAverage.New, pass]
  have h := trigger_resets 10000000000 (initState 10000000000 0)
    (pass [30000] 3000000000) rfl rfl ht
  ⟨ht, h.2.1.trans (by decide), (h.2.2.2.2.1 (by decide) (by decide)).trans (by decide)⟩

/-! ## What the display shows -/

theorem initState_synced (dur t0 : Int) : Synced (initState dur t0) := rfl

theorem body_next_synced (dur : Int) (s : LoopState) (it : Iteration)
    (h : (body dur s it).2.2 = false) : Synced (body dur s it).2.1 := by
  rw [body_next dur s it h]; rfl

theorem loop_formatted (dur : Int) (its : List Iteration) : ∀ s : LoopState,
    (loop dur s its).frames.map (fun f => f.formatted)
      = (s.remaining :: List.zipWith Time.Sub
          ((loop dur s its).frames.map (fun f => f.endAfter))
          (its.map (fun it => it.now))).take (loop dur s its).frames.length := by
  induction its with
  | nil => intro s; rw [loop_nil]; rfl
  | cons it rest ih =>
    intro s
    rw [loop_cons]
    by_cases hg : guard s = true
    · rw [if_pos hg]
      by_cases he : (body dur s it).2.2 = true
      · rw [if_pos he]
        simp [body_frame]
      · rw [if_neg he]
        have he2 : (body dur s it).2.2 = false := by simpa using he
        have hrem : (body dur s it).2.1.remaining
            = Time.Sub (body dur s it).1.endAfter it.now := by
          rw [body_next dur s it he2, body_frame]
        have := ih (body dur s it).2.1
        rw [hrem] at this
        simp only [List.map_cons, List.length_cons, List.zipWith_cons_cons,
          List.take_succ_cons]
        rw [this]
        simp [body_frame]
    · rw [if_neg hg]; rfl

theorem loop_formatted_entry (dur : Int) (its : List Iteration) : ∀ s : LoopState,
    Synced s →
    ∀ f ∈ (loop dur s its).frames, f.formatted = Time.Sub f.endBefore f.start := by
  induction its with
  | nil => intro s _ f hf; rw [loop_nil] at hf; simp at hf
  | cons it rest ih =>
    intro s hs f hf
    rw [loop_cons] at hf
    have hframe : (body dur s it).1.formatted
        = Time.Sub (body dur s it).1.endBefore (body dur s it).1.start := by
      rw [body_frame]; exact hs
    by_cases hg : guard s = true
    · rw [if_pos hg] at hf
      by_cases he : (body dur s it).2.2 = true
      · rw [if_pos he] at hf
        rw [List.mem_singleton.mp hf]; exact hframe
      · rw [if_neg he] at hf
        rcases List.mem_cons.mp hf with hf | hf
        · rw [hf]; exact hframe
        · exact ih _ (body_next_synced dur s it (by simpa using he)) f hf
    · rw [if_neg hg] at hf; simp at hf

/-- C8, as stated, fails on a 10 s countdown whose first pass is quiet and ends
at 8 s and whose second pass triggers and ends at 8.5 s: the second pass shows
`00:02`, although its `end` was reset to 18 s and the remaining time
recomputed in that pass, 9.5 s, formats as `00:10`. -/
theorem displayed_counterexample :
    (run 10000000000 0 [pass [0] 8000000000, pass [30000] 8500000000]).frames.map
        (fun f => (f.triggered, f.endAfter, f.text))
      = [(false, 10000000000, "00:10"), (true, 18000000000, "00:02")] ∧
    fmtDuration (Time.Sub 18000000000 8500000000) = "00:10" ∧
    "00:02" ≠ fmtDuration (Time.Sub 18000000000 8500000000) := by
  refine ⟨?_, by decide, by decide⟩
  norm_num [run, loop, body, feed, guard, initState, MovingAverage.Avg, MovingAverage.Add,
    MovingAverage.New, Time.Add, Time.Sub, pollEvents, pass, maxDuration, minDuration]
  constructor <;> decide

/-- C8 (amended): in every pass the string handed to the display is
`fmtDuration` of the remaining time as it stood when the pass began: the
original duration in the first pass, and in every later pass the value
recomputed at the end of the previous pass (the previous pass's `end` after its
trigger decision minus the previous pass's clock reading). It is this pass's
`end` before the trigger decision minus the previous clock reading, so a pass
in which the trigger fires does not yet show the reset `end`. -/
theorem displayed_is_entry_remaining (dur t0 : Int) (its : List Iteration) :
    (∀ f ∈ (run dur t0 its).frames,
      f.text = fmtDuration f.formatted ∧ f.formatted = Time.Sub f.endBefore f.start) ∧
    (run dur t0 its).frames.map (fun f => f.formatted)
      = (Time.Sub (Time.Add t0 dur) t0 :: List.zipWith Time.Sub
          ((run dur t0 its).frames.map (fun f => f.endAfter))
          (its.map (fun it => it.now))).take (run dur t0 its).frames.length := by
  constructor
  · intro f hf
    have hinit : (initState dur t0).remaining ≤ 9223372036854775807 := by
      rw [initState_remaining]; exact Time.Sub_le_max _ _
    exact ⟨(loop_frames_positive dur its (initState dur t0) hinit f hf).2.2,
      loop_formatted_entry dur its (initState dur t0) (initState_synced dur t0) f hf⟩
  · exact loop_formatted dur its (initState dur t0)

/-- C8 (amended), on the run of the counterexample: the second pass shows the
2 s computed at the end of the first. -/
theorem displayed_is_entry_remaining_witness :
    (run 10000000000 0 [pass [0] 8000000000, pass [30000] 8500000000]).frames.map
        (fun f => f.formatted) = [10000000000, 2000000000] ∧
    (∀ f ∈ (run 10000000000 0 [pass [0] 8000000000, pass [30000] 8500000000]).frames,
      f.text = fmtDuration f.formatted ∧ f.formatted = Time.Sub f.endBefore f.start) := by
  refine ⟨?_, (displayed_is_entry_remaining 10000000000 0
    [pass [0] 8000000000, pass [30000] 8500000000]).1⟩
  norm_num [run, loop, body, feed, guard, initState, MovingAverage.Avg, MovingAverage.Add,
    MovingAverage.New, Time.Add, Time.Sub, pollEvents, pass, maxDuration, minDuration]

/-! ## The invariant between `end` and `start` -/

theorem body_frame_end (dur : Int) (s : LoopState) (it : Iteration) (hdur : 0 ≤ dur)
    (hs : Synced s) (hg : guard s = true) :
    (body dur s it).1.start = s.start ∧ (body dur s it).1.endBefore = s.end_ ∧
    (body dur s it).1.start < (body dur s it).1.endBefore ∧
    (body dur s it).1.start ≤ (body dur s it).1.endAfter := by
  have hpos : 0 < s.remaining := ((guard_iff s).mp hg).2
  rw [hs, Time.Sub_pos_iff] at hpos
  rw [body_frame]
  refine ⟨rfl, rfl, hpos, ?_⟩
  simp only
  unfold Time.Add
  split_ifs <;> omega

theorem loop_end_start (dur : Int) (hdur : 0 ≤ dur) (its : List Iteration) :
    ∀ s : LoopState, Synced s →
    (∀ f ∈ (loop dur s its).frames, f.start < f.endBefore ∧ f.start ≤ f.endAfter) ∧
    ((loop dur s its).final.start ≤ (loop dur s its).final.end_
      ↔ 0 ≤ (loop dur s its).final.remaining) ∧
    ((loop dur s its).outcome = .returned false → (loop dur s its).final.running = true →
      (loop dur s its).final.end_ ≤ (loop dur s its).final.start) := by
  have stop : ∀ s : LoopState, Synced s →
      (s.start ≤ s.end_ ↔ 0 ≤ s.remaining) ∧
      (¬ (guard s = true) → s.running = true → s.end_ ≤ s.start) := by
    intro s hs
    refine ⟨by rw [hs, Time.Sub_nonneg_iff], ?_⟩
    intro hg hr
    rw [guard_iff, hs, Time.Sub_pos_iff] at hg
    have : ¬ (s.start < s.end_) := fun h => hg ⟨hr, h⟩
    omega
  induction its with
  | nil =>
    intro s hs
    rw [loop_nil]
    refine ⟨by simp, (stop s hs).1, ?_⟩
    intro ho hr
    by_cases hg : guard s = true
    · simp [hg] at ho
    · exact (stop s hs).2 hg hr
  | cons it rest ih =>
    intro s hs
    rw [loop_cons]
    by_cases hg : guard s = true
    · obtain ⟨_, _, hlt, hle⟩ := body_frame_end dur s it hdur hs hg
      rw [if_pos hg]
      by_cases he : (body dur s it).2.2 = true
      · rw [if_pos he]
        refine ⟨?_, ?_, by simp⟩
        · intro f hf
          rw [List.mem_singleton.mp hf]; exact ⟨hlt, hle⟩
        · have hpos : 0 < s.remaining := ((guard_iff s).mp hg).2
          have h1 : (body dur s it).2.1.start = (body dur s it).1.start := by
            rw [body_next_failed dur s it he, body_frame]
          have h2 : (body dur s it).2.1.end_ = (body dur s it).1.endAfter := by
            rw [body_next_failed dur s it he, body_frame]
          have h3 : (body dur s it).2.1.remaining = s.remaining := by
            rw [body_next_failed dur s it he]
          simp only
          rw [h1, h2, h3]
          constructor
          · intro _; omega
          · intro _; exact hle
      · rw [if_neg he]
        obtain ⟨i1, i2, i3⟩ := ih _ (body_next_synced dur s it (by simpa using he))
        refine ⟨?_, i2, i3⟩
        intro f hf
        rcases List.mem_cons.mp hf with hf | hf
        · rw [hf]; exact ⟨hlt, hle⟩
        · exact i1 f hf
    · rw [if_neg hg]
      refine ⟨by simp, (stop s hs).1, ?_⟩
      intro _ hr
      exact (stop s hs).2 hg hr

theorem loop_end_ge_origin (dur : Int) (hdur : 0 ≤ dur) (t0 : Int) (its : List Iteration) :
    ∀ s : LoopState, t0 ≤ s.start → t0 ≤ s.end_ →
    List.Chain (fun a b => a ≤ b) s.start (its.map (fun it => it.now)) →
    (∀ f ∈ (loop dur s its).frames, t0 ≤ f.endBefore ∧ t0 ≤ f.endAfter) ∧
    t0 ≤ (loop dur s its).final.end_ := by
  induction its with
  | nil => intro s _ h2 _; rw [loop_nil]; exact ⟨by simp, h2⟩
  | cons it rest ih =>
    intro s h1 h2 hc
    rw [List.map_cons, List.chain_cons] at hc
    rw [loop_cons]
    have hframe : t0 ≤ (body dur s it).1.endBefore ∧ t0 ≤ (body dur s it).1.endAfter := by
      rw [body_frame]
      refine ⟨h2, ?_⟩
      simp only
      unfold Time.Add
      split_ifs <;> omega
    by_cases hg : guard s = true
    · rw [if_pos hg]
      by_cases he : (body dur s it).2.2 = true
      · rw [if_pos he]
        refine ⟨?_, ?_⟩
        · intro f hf
          rw [List.mem_singleton.mp hf]; exact hframe
        · have h3 : (body dur s it).2.1.end_ = (body dur s it).1.endAfter := by
            rw [body_next_failed dur s it he, body_frame]
          simp only
          rw [h3]; exact hframe.2
      · rw [if_neg he]
        have he2 : (body dur s it).2.2 = false := by simpa using he
        have h3 : (body dur s it).2.1.end_ = (body dur s it).1.endAfter := by
          rw [body_next dur s it he2, body_frame]
        have h4 : (body dur s it).2.1.start = it.now := by
          rw [body_next dur s it he2]
        obtain ⟨i1, i2⟩ := ih (body dur s it).2.1 (by rw [h4]; omega)
          (by rw [h3]; exact hframe.2) (by rw [h4]; exact hc.2)
        refine ⟨?_, i2⟩
        intro f hf
        rcases List.mem_cons.mp hf with hf | hf
        · rw [hf]; exact hframe
        · exact i1 f hf
    · rw [if_neg hg]; exact ⟨by simp, h2⟩

/-- C9, as stated, fails on a 10 s countdown whose only pass ends at 12 s: the
loop exits by expiry with `start` at 12 s and `end` at 10 s. -/
theorem end_ge_start_counterexample :
    (0 : Int) ≤ 10000000000 ∧
    List.Chain (fun a b => a ≤ b) (0 : Int) ([pass [0] 12000000000].map (fun it => it.now)) ∧
    (run 10000000000 0 [pass [0] 12000000000]).outcome = .returned false ∧
    (run 10000000000 0 [pass [0] 12000000000]).final.start = 12000000000 ∧
    (run 10000000000 0 [pass [0] 12000000000]).final.end_ = 10000000000 ∧
    ¬ ((run 10000000000 0 [pass [0] 12000000000]).final.start
        ≤ (run 10000000000 0 [pass [0] 12000000000]).final.end_) := by
  refine ⟨by decide, by simp [pass], ?_⟩
  norm_num [run, loop, body, feed, guard, initState, MovingAverage.Avg, MovingAverage.Add,
    MovingAverage.New, Time.Add, Time.Sub, pollEvents, pass, maxDuration, minDuration]

/-- C9 (amended): for every non-negative original duration and every run with
non-decreasing clock readings, `end ≥ start` holds initially, when each pass
begins (strictly) and after each pass's trigger decision; after the recompute
of the last pass, in the final state, it holds exactly when the recomputed
`remaining` is non-negative, and when the loop exits by expiry (no error and
`running` still true) `end ≤ start`; `end` is never below the initial clock
reading. -/
theorem end_ge_start (dur t0 : Int) (its : List Iteration) (hdur : 0 ≤ dur)
    (hclock : List.Chain (fun a b => a ≤ b) t0 (its.map (fun it => it.now))) :
    (initState dur t0).start ≤ (initState dur t0).end_ ∧
    (∀ f ∈ (run dur t0 its).frames,
      f.start < f.endBefore ∧ f.start ≤ f.endAfter ∧ t0 ≤ f.endBefore ∧ t0 ≤ f.endAfter) ∧
    ((run dur t0 its).final.start ≤ (run dur t0 its).final.end_
      ↔ 0 ≤ (run dur t0 its).final.remaining) ∧
    ((run dur t0 its).outcome = .returned false → (run dur t0 its).final.running = true →
      (run dur t0 its).final.end_ ≤ (run dur t0 its).final.start) ∧
    t0 ≤ (run dur t0 its).final.end_ := by
  have hinit : (initState dur t0).start ≤ (initState dur t0).end_ := by
    show t0 ≤ Time.Add t0 dur
    unfold Time.Add; omega
  obtain ⟨a1, a2, a3⟩ := loop_end_start dur hdur its (initState dur t0)
    (initState_synced dur t0)
  obtain ⟨b1, b2⟩ := loop_end_ge_origin dur hdur t0 its (initState dur t0)
    (le_refl _) hinit hclock
  exact ⟨hinit, fun f hf => ⟨(a1 f hf).1, (a1 f hf).2, (b1 f hf).1, (b1 f hf).2⟩,
    a2, a3, b2⟩

/-- C9 (amended), on a 10 s countdown with a quiet pass ending at 4 s and a
triggering pass ending at 12 s. -/
theorem end_ge_start_witness :
    (run 10000000000 0 [pass [0] 4000000000, pass [30000] 12000000000]).frames.map
        (fun f => (f.start, f.endBefore, f.endAfter))
      = [(0, 10000000000, 10000000000), (4000000000, 10000000000, 14000000000)] ∧
    (∀ f ∈ (run 10000000000 0 [pass [0] 4000000000, pass [30000] 12000000000]).frames,
      f.start < f.endBefore ∧ f.start ≤ f.endAfter ∧ 0 ≤ f.endBefore ∧ 0 ≤ f.endAfter) ∧
    (0 : Int) ≤ (run 10000000000 0
      [pass [0] 4000000000, pass [30000] 12000000000]).final.end_ := by
  have h := end_ge_start 10000000000 0 [pass [0] 4000000000, pass [30000] 12000000000]
    (by decide) (by simp [pass])
  refine ⟨?_, h.2.1, h.2.2.2.2⟩
  norm_num [run, loop, body, feed, guard, initState, MovingAverage.Avg, MovingAverage.Add,
    MovingAverage.New, Time.Add, Time.Sub, pollEvents, pass, maxDuration, minDuration]

/-! ## Expiry -/

theorem loop_expired_iff (dur : Int) (its : List Iteration) :
    ∀ (s : LoopState) (b : Int), s.running = true → Synced s → s.end_ = b + dur →
    (∀ it ∈ its, Event.QuitEvent ∉ it.events ∧ it.renderErr = false ∧ it.blitErr = false) →
    (loop dur s its).frames.length = its.length →
    ((loop dur s its).outcome = .returned false ↔
      dur ≤ (its.map (fun it => it.now)).getLastD s.start
        - resetBase s.start b (List.zip ((loop dur s its).frames.map (fun f => f.triggered))
            (its.map (fun it => it.now)))) ∧
    ((loop dur s its).outcome = .blocked ↔
      (its.map (fun it => it.now)).getLastD s.start
        - resetBase s.start b (List.zip ((loop dur s its).frames.map (fun f => f.triggered))
            (its.map (fun it => it.now))) < dur) := by
  induction its with
  | nil =>
    intro s b hr hs he _ _
    rw [loop_nil]
    have hg : guard s = true ↔ s.start < b + dur := by
      rw [guard_iff, hs, Time.Sub_pos_iff, he]
      exact ⟨fun h => h.2, fun h => ⟨hr, h⟩⟩
    simp only [List.map_nil, List.getLastD_nil, List.zip_nil_right, resetBase]
    by_cases h : guard s = true
    · have := hg.mp h
      simp only [h, if_true]
      constructor
      · constructor
        · intro hc; cases hc
        · intro hc; omega
      · constructor
        · intro _; omega
        · intro _; trivial
    · have : ¬ (s.start < b + dur) := fun hc => h (hg.mpr hc)
      simp only [h]
      constructor
      · constructor
        · intro _; omega
        · intro _; trivial
      · constructor
        · intro hc; cases hc
        · intro hc; omega
  | cons it rest ih =>
    intro s b hr hs he hq hall
    have hit := hq it (List.mem_cons_self _ _)
    rw [loop_cons] at hall ⊢
    by_cases hg : guard s = true
    · have hf : (body dur s it).2.2 = false := by
        rw [body_failed, hit.2.1, hit.2.2]; rfl
      rw [if_pos hg, hf] at hall ⊢
      simp only [Bool.false_eq_true, if_false, List.length_cons, add_left_inj] at hall ⊢
      have hnext := body_next dur s it hf
      have h1 : (body dur s it).2.1.running = true := by
        rw [hnext]
        simp only
        rw [pollEvents_no_quit _ _ hit.1]; exact hr
      have h2 : (body dur s it).2.1.start = it.now := by rw [hnext]
      have h3 : (body dur s it).2.1.end_
          = (if (body dur s it).1.triggered = true then s.start else b) + dur := by
        rw [hnext, body_frame]
        simp only
        unfold Time.Add
        split_ifs <;> omega
      have := ih (body dur s it).2.1 _ h1 (body_next_synced dur s it hf) h3
        (fun x hx => hq x (List.mem_cons_of_mem _ hx)) hall
      rw [h2] at this
      simpa only [List.map_cons, List.getLastD_cons, List.zip_cons_cons, resetBase] using this
    · rw [if_neg hg] at hall
      simp at hall

/-- C3, as stated, fails on a 10 s countdown whose first pass triggers and ends
at 8 s and whose second pass is quiet and ends at 12 s, with no quit event:
both passes run and the loop exits by expiry after the second, 4 s after the
clock reading of the triggering pass. -/
theorem expired_iff_counterexample :
    List.Chain (fun a b => a ≤ b) (0 : Int)
      ([pass [2000] 8000000000, pass [0] 12000000000].map (fun it => it.now)) ∧
    (run 10000000000 0 [pass [2000] 8000000000, pass [0] 12000000000]).frames.map
        (fun f => f.triggered) = [true, false] ∧
    (run 10000000000 0 [pass [2000] 8000000000, pass [0] 12000000000]).outcome
        = .returned false ∧
    lastTriggerReading 0 [(true, 8000000000), (false, 12000000000)] = 8000000000 ∧
    ¬ ((run 10000000000 0 [pass [2000] 8000000000, pass [0] 12000000000]).outcome
          = .returned false ↔
        (10000000000 : Int) ≤ 12000000000
          - lastTriggerReading 0 [(true, 8000000000), (false, 12000000000)]) := by
  have ho : (run 10000000000 0 [pass [2000] 8000000000, pass [0] 12000000000]).outcome
      = .returned false := by
    norm_num [run, loop, body, feed, guard, initState, MovingAverage.Avg, MovingAverage.Add,
      MovingAverage.New, Time.Add, Time.Sub, pollEvents, pass, maxDuration, minDuration]
  refine ⟨by simp [pass], ?_, ho, by decide, ?_⟩
  · norm_num [run, loop, body, feed, guard, initState, MovingAverage.Avg, MovingAverage.Add,
      MovingAverage.New, Time.Add, Time.Sub, pollEvents, pass, maxDuration, minDuration]
  · intro h
    exact absurd (h.mp ho) (by decide)

/-- C3 (amended): for every run of the loop with no quit event and no rendering
failure in which every pass on offer is executed, the loop stops as expired
(`remaining <= 0` at the loop guard) after the last pass if and only if the
time from the clock reading that was in force when the most recent triggering
pass began (the reading taken at the end of the pass before it), or from the
start when no pass triggered, up to the last clock reading is at least the
original duration; otherwise the loop goes on to wait for the next batch. -/
theorem expired_iff (dur t0 : Int) (its : List Iteration)
    (hquiet : ∀ it ∈ its,
      Event.QuitEvent ∉ it.events ∧ it.renderErr = false ∧ it.blitErr = false)
    (hall : (run dur t0 its).frames.length = its.length) :
    ((run dur t0 its).outcome = .returned false ↔
      dur ≤ (its.map (fun it => it.now)).getLastD t0
        - resetBase t0 t0 (List.zip ((run dur t0 its).frames.map (fun f => f.triggered))
            (its.map (fun it => it.now)))) ∧
    ((run dur t0 its).outcome = .blocked ↔
      (its.map (fun it => it.now)).getLastD t0
        - resetBase t0 t0 (List.zip ((run dur t0 its).frames.map (fun f => f.triggered))
            (its.map (fun it => it.now))) < dur) :=
  loop_expired_iff dur its (initState dur t0) t0 rfl (initState_synced dur t0) rfl
    hquiet hall

/-- C3 (amended), on the run of the counterexample: the countdown in force is
counted from the reading 0 at which the triggering pass began, and 12 s later
the loop has expired. -/
theorem expired_iff_witness :
    (run 10000000000 0 [pass [2000] 8000000000, pass [0] 12000000000]).frames.length = 2 ∧
    resetBase 0 0 [(true, 8000000000), (false, 12000000000)] = 0 ∧
    ((run 10000000000 0 [pass [2000] 8000000000, pass [0] 12000000000]).outcome
        = .returned false ↔
      (10000000000 : Int) ≤
        ([pass [2000] 8000000000, pass [0] 12000000000].map (fun it => it.now)).getLastD 0
        - resetBase 0 0 (List.zip
            ((run 10000000000 0 [pass [2000] 8000000000, pass [0] 12000000000]).frames.map
              (fun f => f.triggered))
            ([pass [2000] 8000000000, pass [0] 12000000000].map (fun it => it.now)))) := by
  have hall : (run 10000000000 0
      [pass [2000] 8000000000, pass [0] 12000000000]).frames.length = 2 := by
    norm_num [run, loop, body, feed, guard, initState, MovingAverage.Avg, MovingAverage.Add,
      MovingAverage.New, Time.Add, Time.Sub, pollEvents, pass, maxDuration, minDuration]
  exact ⟨hall, by decide,
    (expired_iff 10000000000 0 [pass [2000] 8000000000, pass [0] 12000000000]
      (by simp [pass]) hall).1⟩

/-! ## The moving average and the trigger decision -/

theorem recent_eq (cap : Nat) (xs : List ℚ) : recent cap xs = xs.drop (xs.length - cap) := by
  unfold recent
  congr 1
  omega

theorem recent_length (cap : Nat) (xs : List ℚ) :
    (recent cap xs).length = min xs.length cap := by
  rw [recent_eq, List.length_drop]
  omega

theorem tracks_new (window : Nat) : Tracks (MovingAverage.New window) [] := by
  unfold Tracks MovingAverage.New recent
  simp

theorem tracks_add (ma : MovingAverage) (hist : List ℚ) (v : ℚ) (h : Tracks ma hist) :
    Tracks (ma.Add v) (hist ++ [v]) ∧ (ma.Add v).Window = ma.Window := by
  obtain ⟨hv, hsum⟩ := h
  have hlen : ma.values.length = min hist.length ma.Window := by
    rw [hv, recent_length]
  unfold MovingAverage.Add
  by_cases hlt : ma.values.length < ma.Window
  · rw [if_pos hlt]
    refine ⟨⟨?_, ?_⟩, rfl⟩
    · have hn : hist.length < ma.Window := by omega
      have e0 : hist.length - ma.Window = 0 := by omega
      have e1 : (hist ++ [v]).length - ma.Window = 0 := by
        simp only [List.length_append, List.length_singleton]; omega
      show ma.values ++ [v] = recent ma.Window (hist ++ [v])
      rw [recent_eq, e1, hv, recent_eq, e0]
      rfl
    · show ma.sum + v = (ma.values ++ [v]).sum
      rw [List.sum_append, hsum]
      simp
  · rw [if_neg hlt]
    have hn : ma.Window ≤ hist.length := by omega
    rcases hvals : ma.values with _ | ⟨e, rest⟩
    · refine ⟨⟨?_, ?_⟩, rfl⟩
      · have hw : ma.Window = 0 := by
          rw [hvals] at hlen
          simp only [List.length_nil] at hlen
          omega
        show ma.values = recent ma.Window (hist ++ [v])
        rw [hvals, recent_eq, hw]
        simp
      · show ma.sum = ma.values.sum
        exact hsum
    · refine ⟨⟨?_, ?_⟩, rfl⟩
      · have hw : 1 ≤ ma.Window := by
          rw [hvals] at hlen
          simp only [List.length_cons] at hlen
          omega
        have hd : hist.drop (hist.length - ma.Window) = e :: rest := by
          rw [← recent_eq, ← hv, hvals]
        have e1 : (hist ++ [v]).length - ma.Window = (hist.length - ma.Window) + 1 := by
          simp only [List.length_append, List.length_singleton]; omega
        show rest ++ [v] = recent ma.Window (hist ++ [v])
        rw [recent_eq, e1, List.drop_append_of_le_length (by omega), ← List.drop_drop, hd]
        rfl
      · show ma.sum + (v - e) = (rest ++ [v]).sum
        rw [List.sum_append, hsum, hvals]
        simp only [List.sum_cons, List.sum_nil]
        ring

theorem tracks_feed (audioSamples : List Int) : ∀ (ma : MovingAverage) (hist : List ℚ),
    Tracks ma hist →
    Tracks (feed ma audioSamples)
      (hist ++ audioSamples.map (fun x => ((|x| : Int) : ℚ))) ∧
    (feed ma audioSamples).Window = ma.Window := by
  induction audioSamples with
  | nil => intro ma hist h; simpa [feed] using h
  | cons x xs ih =>
    intro ma hist h
    obtain ⟨h1, h2⟩ := tracks_add ma hist ((|x| : Int) : ℚ) h
    obtain ⟨h3, h4⟩ := ih _ _ h1
    have e : feed ma (x :: xs) = feed (ma.Add ((|x| : Int) : ℚ)) xs := rfl
    rw [e]
    refine ⟨?_, h4.trans h2⟩
    simpa using h3

theorem avg_eq_mean (ma : MovingAverage) (hist : List ℚ) (h : Tracks ma hist) :
    ma.Avg = mean (recent ma.Window hist) := by
  obtain ⟨hv, hsum⟩ := h
  unfold MovingAverage.Avg mean
  rw [← hv, hsum]
  by_cases h0 : ma.values.length = 0
  · rw [if_pos h0, h0]; simp
  · rw [if_neg h0]

theorem received_take_succ (it : Iteration) (rest : List Iteration) (k : Nat) :
    received ((it :: rest).take (k + 1))
      = it.audioSamples.map (fun x => ((|x| : Int) : ℚ)) ++ received (rest.take k) := rfl

theorem loop_trigger_iff (dur : Int) (its : List Iteration) :
    ∀ (s : LoopState) (hist : List ℚ), Tracks s.movingAvg hist →
    s.movingAvg.Window = 4096 →
    ∀ (k : Nat) (f : Frame), (loop dur s its).frames[k]? = some f →
      (f.triggered = true ↔ 1000 < mean (recent 4096 (hist ++ received (its.take (k + 1))))) ∧
      (f.triggered = true → f.endAfter = Time.Add f.start dur) ∧
      (f.triggered = false → f.endAfter = f.endBefore) := by
  induction its with
  | nil => intro s hist _ _ k f hf; rw [loop_nil] at hf; simp at hf
  | cons it rest ih =>
    intro s hist ht hw k f hf
    obtain ⟨ht1, hw1⟩ := tracks_feed it.audioSamples s.movingAvg hist ht
    have havg := avg_eq_mean _ _ ht1
    rw [hw1, hw] at havg
    have hframe : ((body dur s it).1.triggered = true ↔
        1000 < mean (recent 4096 (hist ++ received ((it :: rest).take (0 + 1))))) ∧
        ((body dur s it).1.triggered = true →
          (body dur s it).1.endAfter = Time.Add (body dur s it).1.start dur) ∧
        ((body dur s it).1.triggered = false →
          (body dur s it).1.endAfter = (body dur s it).1.endBefore) := by
      rw [body_frame, received_take_succ]
      simp only [List.take_zero, received, List.append_nil]
      rw [havg]
      refine ⟨by simp, ?_, ?_⟩
      · intro h; rw [if_pos h]
      · intro h; rw [h]; rfl
    rw [loop_cons] at hf
    by_cases hg : guard s = true
    · rw [if_pos hg] at hf
      by_cases he : (body dur s it).2.2 = true
      · rw [if_pos he] at hf
        cases k with
        | zero =>
          simp only [List.getElem?_cons_zero, Option.some.injEq] at hf
          rw [← hf]; exact hframe
        | succ k => simp at hf
      · rw [if_neg he] at hf
        cases k with
        | zero =>
          simp only [List.getElem?_cons_zero, Option.some.injEq] at hf
          rw [← hf]; exact hframe
        | succ k =>
          simp only [List.getElem?_cons_succ] at hf
          have hmov : (body dur s it).2.1.movingAvg = feed s.movingAvg it.audioSamples := by
            rw [body_next dur s it (by simpa using he)]
          have := ih (body dur s it).2.1
            (hist ++ it.audioSamples.map (fun x => ((|x| : Int) : ℚ)))
            (by rw [hmov]; exact ht1) (by rw [hmov, hw1, hw]) k f hf
          rw [received_take_succ, ← List.append_assoc]
          exact this
    · rw [if_neg hg] at hf; simp at hf

theorem loop_pass_states (dur : Int) (its : List Iteration) :
    ∀ (s : LoopState) (k : Nat) (f : Frame), (loop dur s its).frames[k]? = some f →
      f.start = (loop dur s (its.take k)).final.start ∧
      f.endBefore = (loop dur s (its.take k)).final.end_ ∧
      f.endAfter = (loop dur s (its.take (k + 1))).final.end_ := by
  induction its with
  | nil => intro s k f hf; rw [loop_nil] at hf; simp at hf
  | cons it rest ih =>
    intro s k f hf
    rw [loop_cons] at hf
    by_cases hg : guard s = true
    · rw [if_pos hg] at hf
      have hzero : (loop dur s ((it :: rest).take 0)).final = s := by
        rw [List.take_zero, loop_nil]
      by_cases he : (body dur s it).2.2 = true
      · rw [if_pos he] at hf
        cases k with
        | zero =>
          simp only [List.getElem?_cons_zero, Option.some.injEq] at hf
          have hone : (loop dur s ((it :: rest).take (0 + 1))).final = (body dur s it).2.1 := by
            rw [List.take_succ_cons, List.take_zero, loop_cons, if_pos hg, if_pos he]
          rw [hzero, hone, ← hf, body_next_failed dur s it he, body_frame]
          exact ⟨rfl, rfl, rfl⟩
        | succ k => simp at hf
      · rw [if_neg he] at hf
        have he2 : (body dur s it).2.2 = false := by simpa using he
        have hstep : ∀ l : List Iteration,
            (loop dur s (it :: l)).final = (loop dur (body dur s it).2.1 l).final := by
          intro l
          rw [loop_cons, if_pos hg, if_neg he]
        cases k with
        | zero =>
          simp only [List.getElem?_cons_zero, Option.some.injEq] at hf
          have hone : (loop dur s ((it :: rest).take (0 + 1))).final = (body dur s it).2.1 := by
            rw [List.take_succ_cons, List.take_zero, hstep, loop_nil]
          rw [hzero, hone, ← hf, body_next dur s it he2, body_frame]
          exact ⟨rfl, rfl, rfl⟩
        | succ k =>
          simp only [List.getElem?_cons_succ] at hf
          obtain ⟨h1, h2, h3⟩ := ih (body dur s it).2.1 k f hf
          rw [List.take_succ_cons, List.take_succ_cons, hstep, hstep]
          exact ⟨h1, h2, h3⟩
    · rw [if_neg hg] at hf; simp at hf

/-- C4: in every run of the loop, let `before` be the state in which the loop
enters the pass of index `k` (the state left by the first `k` passes) and
`after` the state in which it leaves that pass. The variable `end` is reset in
that pass (line 170 runs, so that `after.end = before.start + dur`) if and only
if, once every sample of the batches of passes `0` to `k` has been fed as its
absolute value, the arithmetic mean of the most recent `min n 4096` of the `n`
absolute values received so far is strictly greater than 1000; in every other
pass `end` is left unchanged, `after.end = before.end`. -/
theorem trigger_iff_mean (dur t0 : Int) (its : List Iteration) (k : Nat) (f : Frame)
    (hf : (run dur t0 its).frames[k]? = some f) :
    (f.triggered = true ↔ 1000 < mean (recent 4096 (received (its.take (k + 1))))) ∧
    f.start = (run dur t0 (its.take k)).final.start ∧
    f.endBefore = (run dur t0 (its.take k)).final.end_ ∧
    f.endAfter = (run dur t0 (its.take (k + 1))).final.end_ ∧
    (1000 < mean (recent 4096 (received (its.take (k + 1)))) →
      (run dur t0 (its.take (k + 1))).final.end_
        = Time.Add (run dur t0 (its.take k)).final.start dur) ∧
    (¬ (1000 < mean (recent 4096 (received (its.take (k + 1))))) →
      (run dur t0 (its.take (k + 1))).final.end_ = (run dur t0 (its.take k)).final.end_) := by
  have h := loop_trigger_iff dur its (initState dur t0) [] (tracks_new 4096) rfl k f hf
  simp only [List.nil_append] at h
  obtain ⟨h1, h2, h3⟩ := h
  obtain ⟨s1, s2, s3⟩ := loop_pass_states dur its (initState dur t0) k f hf
  unfold run
  refine ⟨h1, s1, s2, s3, ?_, ?_⟩
  · intro hm
    rw [← s3, ← s1]
    exact h2 (h1.mpr hm)
  · intro hm
    rw [← s3, ← s2]
    apply h3
    cases ht : f.triggered
    · rfl
    · exact absurd (h1.mp ht) hm

/-- C4, on a 10 s countdown with a quiet pass ending at 1 s, a loud one ending
at 2 s and one more: the mean of the two absolute values received by the second
pass is 15000, and that pass takes `end` from 10 s to 1 s + 10 s. -/
theorem trigger_iff_mean_witness :
    (run 10000000000 0 [pass [0] 1000000000, pass [-30000] 2000000000,
        pass [0] 3000000000]).frames[1]?
      = some ⟨1000000000, 10000000000, true, 11000000000, 9000000000, "00:09"⟩ ∧
    mean (recent 4096 (received
      ([pass [0] 1000000000, pass [-30000] 2000000000, pass [0] 3000000000].take
        (1 + 1)))) = 15000 ∧
    (run 10000000000 0 ([pass [0] 1000000000, pass [-30000] 2000000000,
        pass [0] 3000000000].take 1)).final.end_ = 10000000000 ∧
    (run 10000000000 0 ([pass [0] 1000000000, pass [-30000] 2000000000,
        pass [0] 3000000000].take 1)).final.start = 1000000000 ∧
    (run 10000000000 0 ([pass [0] 1000000000, pass [-30000] 2000000000,
        pass [0] 3000000000].take (1 + 1))).final.end_
      = Time.Add (run 10000000000 0 ([pass [0] 1000000000, pass [-30000] 2000000000,
        pass [0] 3000000000].take 1)).final.start 10000000000 ∧
    (run 10000000000 0 ([pass [0] 1000000000, pass [-30000] 2000000000,
        pass [0] 3000000000].take (1 + 1))).final.end_ = 11000000000 := by
  have hf : (run 10000000000 0 [pass [0] 1000000000, pass [-30000] 2000000000,
        pass [0] 3000000000]).frames[1]?
      = some ⟨1000000000, 10000000000, true, 11000000000, 9000000000, "00:09"⟩ := by
    norm_num [run, loop, body, feed, guard, initState, MovingAverage.Avg, MovingAverage.Add,
      MovingAverage.New, Time.Add, Time.Sub, pollEvents, pass, maxDuration, minDuration]
    decide
  have hm : mean (recent 4096 (received
      ([pass [0] 1000000000, pass [-30000] 2000000000, pass [0] 3000000000].take
        (1 + 1)))) = 15000 := by
    norm_num [mean, recent, received, pass]
  have h := trigger_iff_mean 10000000000 0
    [pass [0] 1000000000, pass [-30000] 2000000000, pass [0] 3000000000] 1 _ hf
  refine ⟨hf, hm, h.2.2.1.symm, h.2.1.symm, h.2.2.2.2.1 (by rw [hm]; norm_num),
    h.2.2.2.1.symm⟩

/-! ## The capture callback -/

theorem int16OfBytes_range (bo : ByteOrder) (b0 b1 : Fin 256) :
    -32768 ≤ int16OfBytes bo b0 b1 ∧ int16OfBytes bo b0 b1 ≤ 32767 := by
  have h0 := b0.isLt
  have h1 := b1.isLt
  unfold int16OfBytes
  cases bo <;> simp only <;> split_ifs <;> omega

theorem bytesOfInt16_int16OfBytes (bo : ByteOrder) (b0 b1 : Fin 256) :
    bytesOfInt16 bo (int16OfBytes bo b0 b1) = [b0, b1] := by
  have h0 := b0.isLt
  have h1 := b1.isLt
  unfold bytesOfInt16 int16OfBytes
  cases bo <;> simp only <;> split_ifs <;>
    simp only [List.cons.injEq, and_true] <;>
    constructor <;> apply Fin.ext <;> simp only [Fin.ofNat, Fin.val_mk] <;> omega

theorem bufAt_cons_cons (bo : ByteOrder) (a b : Fin 256) (rest : List (Fin 256)) (i : Nat) :
    bufAt bo (a :: b :: rest) (i + 1) = bufAt bo rest i := by
  unfold bufAt
  have e1 : 2 * (i + 1) = (2 * i + 1) + 1 := by omega
  rw [e1]
  simp only [List.getD_cons_succ]

theorem view_cons_cons (bo : ByteOrder) (a b : Fin 256) (rest : List (Fin 256)) (n : Nat) :
    (List.range (n + 1)).map (bufAt bo (a :: b :: rest))
      = int16OfBytes bo a b :: (List.range n).map (bufAt bo rest) := by
  rw [List.range_succ_eq_map, List.map_cons, List.map_map]
  refine congrArg₂ List.cons rfl ?_
  apply List.map_congr_left
  intro i _
  exact bufAt_cons_cons bo a b rest i

theorem view_bytes (bo : ByteOrder) (n : Nat) : ∀ stream : List (Fin 256),
    2 * n ≤ stream.length →
    ((List.range n).map (bufAt bo stream)).flatMap (bytesOfInt16 bo)
      = stream.take (2 * n) := by
  induction n with
  | zero => intro stream _; simp
  | succ n ih =>
    intro stream h
    match stream, h with
    | a :: b :: rest, h =>
      have hr : 2 * n ≤ rest.length := by
        simp only [List.length_cons] at h; omega
      rw [view_cons_cons, List.flatMap_cons, bytesOfInt16_int16OfBytes, ih rest hr]
      have e : 2 * (n + 1) = (2 * n + 1) + 1 := by omega
      rw [e]
      rfl

theorem view_getElem (bo : ByteOrder) (stream : List (Fin 256)) (n i : Nat)
    (b0 b1 : Fin 256) (hi : i < n) (h0 : stream[2 * i]? = some b0)
    (h1 : stream[2 * i + 1]? = some b1) :
    ((List.range n).map (bufAt bo stream))[i]? = some (int16OfBytes bo b0 b1) := by
  rw [List.getElem?_map, List.getElem?_range hi]
  unfold bufAt
  simp [List.getD_eq_getElem?_getD, h0, h1]

/-- C5: for every capture buffer of `L` bytes, `OnAudio` sends on `audioC` one
batch of exactly `L / 2` values; the value of index `i` is the `int16` held, in
the platform's byte order, by bytes `2 i` and `2 i + 1` of the buffer, so every
value is in the `int16` range; and the bytes of the batch, in order, are the
first `2 (L / 2)` bytes of the buffer: the whole buffer when `L` is even, the
buffer without its last byte when `L` is odd. -/
theorem OnAudio_batch (bo : ByteOrder) (stream : List (Fin 256)) :
    ∃ batch : List Int,
      OnAudio bo stream stream.length = some [batch] ∧
      batch.length = stream.length / 2 ∧
      (∀ (i : Nat) (b0 b1 : Fin 256), stream[2 * i]? = some b0 →
        stream[2 * i + 1]? = some b1 → batch[i]? = some (int16OfBytes bo b0 b1)) ∧
      (∀ x ∈ batch, -32768 ≤ x ∧ x ≤ 32767) ∧
      batch.flatMap (bytesOfInt16 bo) = stream.take (2 * (stream.length / 2)) ∧
      (stream.length % 2 = 0 → batch.flatMap (bytesOfInt16 bo) = stream) ∧
      (stream.length % 2 = 1 → batch.flatMap (bytesOfInt16 bo) = stream.dropLast) := by
  have hdiv : Int.tdiv (stream.length : Int) 2 = ((stream.length / 2 : Nat) : Int) :=
    (Int.ofNat_tdiv stream.length 2).symm
  have hlen : (Int.tdiv (stream.length : Int) 2).toNat = stream.length / 2 := by
    rw [hdiv]
    rfl
  have hneg : ¬ (Int.tdiv (stream.length : Int) 2 < 0) := by
    rw [hdiv]
    omega
  have hbytes := view_bytes bo (stream.length / 2) stream (by omega)
  refine ⟨(List.range (stream.length / 2)).map (bufAt bo stream), ?_, by simp, ?_, ?_,
    hbytes, ?_, ?_⟩
  · unfold OnAudio
    simp only
    rw [if_neg hneg, hlen]
  · intro i b0 b1 h0 h1
    have hi : 2 * i + 1 < stream.length := by
      rcases List.getElem?_eq_some_iff.mp h1 with ⟨h, _⟩
      exact h
    exact view_getElem bo stream _ i b0 b1 (by omega) h0 h1
  · intro x hx
    rcases List.mem_map.mp hx with ⟨i, _, rfl⟩
    exact int16OfBytes_range bo _ _
  · intro heven
    rw [hbytes]
    have e : 2 * (stream.length / 2) = stream.length := by omega
    rw [e, List.take_length]
  · intro hodd
    rw [hbytes, List.dropLast_eq_take]
    congr 1
    omega

/-- C5, on a little-endian buffer of five bytes: two samples, `0x1234` and
`-1`, and the fifth byte dropped. -/
theorem OnAudio_batch_witness :
    OnAudio .littleEndian [0x34, 0x12, 0xff, 0xff, 0x07] 5 = some [[4660, -1]] ∧
    ∃ batch : List Int,
      OnAudio .littleEndian [0x34, 0x12, 0xff, 0xff, 0x07]
        ([0x34, 0x12, 0xff, 0xff, 0x07] : List (Fin 256)).length = some [batch] ∧
      batch.length = ([0x34, 0x12, 0xff, 0xff, 0x07] : List (Fin 256)).length / 2 ∧
      batch.flatMap (bytesOfInt16 .littleEndian) = [0x34, 0x12, 0xff, 0xff] := by
  refine ⟨by decide, ?_⟩
  obtain ⟨batch, h1, h2, _, _, h5, _, _⟩ :=
    OnAudio_batch .littleEndian [0x34, 0x12, 0xff, 0xff, 0x07]
  exact ⟨batch, h1, h2, h5⟩

end Timeout
